import Mathlib

/-!
Shallow embedding of the ssb-arbmark-fagfunksjoner helper library, together
with proofs checking the natural-language specification against the code.

Dates are modelled as integer day counts since the Unix epoch
(1970-01-01 = day 0), exactly the representation the source manipulates
after its numpy datetime64[D] conversions.  The external Norwegian holiday
provider (the `holidays` package) is outside the repository; the functions
that consume it take the holiday date list as an explicit parameter.
-/

namespace Arbmark

/-- Weekend test from src/arbmark/functions/workdays.py: a date with day
count d since the epoch is a weekend day iff (d - 4) % 7 is 5 or 6
(the source computes this on the int64 view of datetime64[D] values;
numpy's % on int64 agrees with the Euclidean remainder used here for the
positive modulus 7). -/
def isWeekendDay (d : Int) : Bool :=
  (d - 4) % 7 == 5 || (d - 4) % 7 == 6

/-- Model of np.arange(min_date, max_date + 1 day): the inclusive contiguous
day range from lo to hi, empty when lo > hi. -/
def datesInRange (lo hi : Int) : List Int :=
  (List.range (hi + 1 - lo).toNat).map (fun (k : Nat) => lo + (k : Int))

/-- Per-row interval count from the loops in workdays.py: the number of
entries d of the reference calendar with f <= d <= t. -/
def countInRange (cal : List Int) (f t : Int) : Nat :=
  (cal.filter (fun d => f ≤ d && d ≤ t)).length

/-- Minimum of a list of day counts (np.min); the source only evaluates it
on nonempty inputs. -/
def listMin : List Int → Int
  | [] => 0
  | x :: xs => xs.foldl min x

/-- Maximum of a list of day counts (np.max); the source only evaluates it
on nonempty inputs. -/
def listMax : List Int → Int
  | [] => 0
  | x :: xs => xs.foldl max x

/-- count_workdays from src/arbmark/functions/workdays.py: build the
calendar over the global [min from, max to] range, drop dates that are in
the holiday list or are weekend days, then count the remaining dates in
each row's inclusive interval.  hol is the sorted key list of the external
Norwegian-holidays provider for the years spanned by the input. -/
def count_workdays (hol : List Int) (rows : List (Int × Int)) : List Nat :=
  let lo := listMin (rows.map Prod.fst)
  let hi := listMax (rows.map Prod.snd)
  let workdays := (datesInRange lo hi).filter
    (fun d => !(hol.contains d) && !(isWeekendDay d))
  rows.map (fun r => countInRange workdays r.1 r.2)

/-- count_holidays from src/arbmark/functions/workdays.py: for each row,
count the provider's holiday dates lying in the row's inclusive interval.
The source applies no weekend filter to holiday_dates. -/
def count_holidays (hol : List Int) (rows : List (Int × Int)) : List Nat :=
  rows.map (fun r => countInRange hol r.1 r.2)

/-- count_weekenddays from src/arbmark/functions/workdays.py: build the
calendar over the global [min from, max to] range, keep the weekend days,
then count them in each row's inclusive interval. -/
def count_weekenddays (rows : List (Int × Int)) : List Nat :=
  let lo := listMin (rows.map Prod.fst)
  let hi := listMax (rows.map Prod.snd)
  let weekenddays := (datesInRange lo hi).filter (fun d => isWeekendDay d)
  rows.map (fun r => countInRange weekenddays r.1 r.2)

/-! Basic facts about the day-range list. -/

theorem mem_datesInRange {lo hi d : Int} :
    d ∈ datesInRange lo hi ↔ lo ≤ d ∧ d ≤ hi := by
  unfold datesInRange
  constructor
  · rintro hd
    rcases List.mem_map.mp hd with ⟨k, hk, rfl⟩
    have := List.mem_range.mp hk
    omega
  · rintro ⟨h1, h2⟩
    refine List.mem_map.mpr ⟨(d - lo).toNat, List.mem_range.mpr ?_, ?_⟩ <;> omega

theorem nodup_datesInRange (lo hi : Int) : (datesInRange lo hi).Nodup := by
  unfold datesInRange
  exact (List.nodup_range _).map (fun a b h => by omega)

theorem length_datesInRange (lo hi : Int) :
    (datesInRange lo hi).length = (hi + 1 - lo).toNat := by
  unfold datesInRange
  simp

/-! Helper lemmas for per-row interval counting. -/

theorem length_filter_eq_of_nodup {α : Type} [DecidableEq α]
    {l1 l2 : List α} (h1 : l1.Nodup) (h2 : l2.Nodup)
    {p q : α → Bool} (h : ∀ x, (x ∈ l1 ∧ p x = true) ↔ (x ∈ l2 ∧ q x = true)) :
    (l1.filter p).length = (l2.filter q).length := by
  have hperm : List.Perm (l1.filter p) (l2.filter q) := by
    refine (List.perm_ext_iff_of_nodup (h1.filter p) (h2.filter q)).mpr ?_
    intro a
    simp only [List.mem_filter]
    exact h a
  exact hperm.length_eq

theorem countInRange_filter_range (P : Int → Bool) {lo hi f t : Int}
    (hlo : lo ≤ f) (hhi : t ≤ hi) :
    countInRange ((datesInRange lo hi).filter P) f t =
      ((datesInRange f t).filter P).length := by
  unfold countInRange
  refine length_filter_eq_of_nodup ((nodup_datesInRange lo hi).filter P)
    (nodup_datesInRange f t) ?_
  intro x
  simp only [List.mem_filter, mem_datesInRange, Bool.and_eq_true, decide_eq_true_eq]
  constructor
  · rintro ⟨⟨⟨hx1, hx2⟩, hP⟩, hf, ht⟩
    exact ⟨⟨hf, ht⟩, hP⟩
  · rintro ⟨⟨hf, ht⟩, hP⟩
    exact ⟨⟨⟨by omega, by omega⟩, hP⟩, hf, ht⟩

theorem countInRange_eq_filter_mem {hol : List Int} (hnd : hol.Nodup) (f t : Int) :
    countInRange hol f t = ((datesInRange f t).filter (fun d => hol.contains d)).length := by
  unfold countInRange
  refine length_filter_eq_of_nodup hnd (nodup_datesInRange f t) ?_
  intro x
  simp only [mem_datesInRange, Bool.and_eq_true, decide_eq_true_eq]
  simp only [List.contains_eq_any_beq, List.any_eq_true, beq_iff_eq]
  constructor
  · rintro ⟨hx, hf, ht⟩
    exact ⟨⟨hf, ht⟩, x, hx, rfl⟩
  · rintro ⟨⟨hf, ht⟩, y, hy, rfl⟩
    exact ⟨hy, hf, ht⟩

theorem countP_three_partition (l : List Int) (p q r : Int → Bool)
    (h : ∀ a ∈ l,
      (p a = true ∧ q a = false ∧ r a = false) ∨
      (p a = false ∧ q a = true ∧ r a = false) ∨
      (p a = false ∧ q a = false ∧ r a = true)) :
    (l.filter p).length + (l.filter q).length + (l.filter r).length = l.length := by
  induction l with
  | nil => simp
  | cons a l ih =>
    have ha := h a (List.mem_cons_self a l)
    have hl := ih (fun b hb => h b (List.mem_cons_of_mem a hb))
    rcases ha with ⟨h1, h2, h3⟩ | ⟨h1, h2, h3⟩ | ⟨h1, h2, h3⟩ <;>
      simp [List.filter_cons, h1, h2, h3] <;> omega

theorem foldl_min_le_init : ∀ (xs : List Int) (a : Int), xs.foldl min a ≤ a
  | [], _ => le_refl _
  | y :: ys, a => le_trans (foldl_min_le_init ys (min a y)) (min_le_left a y)

theorem foldl_min_le_mem : ∀ (xs : List Int) (a x : Int), x ∈ xs → xs.foldl min a ≤ x := by
  intro xs
  induction xs with
  | nil => intro a x hx; cases hx
  | cons y ys ih =>
    intro a x hx
    rcases List.mem_cons.mp hx with rfl | hx
    · exact le_trans (foldl_min_le_init ys (min a x)) (min_le_right a x)
    · exact ih (min a y) x hx

theorem le_foldl_max_init : ∀ (xs : List Int) (a : Int), a ≤ xs.foldl max a
  | [], _ => le_refl _
  | y :: ys, a => le_trans (le_max_left a y) (le_foldl_max_init ys (max a y))

theorem le_foldl_max_mem : ∀ (xs : List Int) (a x : Int), x ∈ xs → x ≤ xs.foldl max a := by
  intro xs
  induction xs with
  | nil => intro a x hx; cases hx
  | cons y ys ih =>
    intro a x hx
    rcases List.mem_cons.mp hx with rfl | hx
    · exact le_trans (le_max_right a x) (le_foldl_max_init ys (max a x))
    · exact ih (max a y) x hx

theorem listMin_le {l : List Int} {x : Int} (hx : x ∈ l) : listMin l ≤ x := by
  cases l with
  | nil => cases hx
  | cons y ys =>
    rcases List.mem_cons.mp hx with rfl | hx
    · exact foldl_min_le_init ys x
    · exact foldl_min_le_mem ys y x hx

theorem le_listMax {l : List Int} {x : Int} (hx : x ∈ l) : x ≤ listMax l := by
  cases l with
  | nil => cases hx
  | cons y ys =>
    rcases List.mem_cons.mp hx with rfl | hx
    · exact le_foldl_max_init ys x
    · exact le_foldl_max_mem ys y x hx

theorem getD_map_of_getElem {α β : Type} {l : List α} {i : Nat} {x : α}
    (h : l[i]? = some x) (g : α → β) (d : β) : (l.map g).getD i d = g x := by
  simp [List.getD_eq_getElem?_getD, List.getElem?_map, h]

theorem count_workdays_getD {hol : List Int} {rows : List (Int × Int)} {i : Nat}
    {f t : Int} (hrow : rows[i]? = some (f, t)) :
    (count_workdays hol rows).getD i 0 =
      ((datesInRange f t).filter
        (fun d => !(hol.contains d) && !(isWeekendDay d))).length := by
  have hmem : (f, t) ∈ rows := List.getElem?_mem hrow
  have hlo : listMin (rows.map Prod.fst) ≤ f :=
    listMin_le (List.mem_map.mpr ⟨(f, t), hmem, rfl⟩)
  have hhi : t ≤ listMax (rows.map Prod.snd) :=
    le_listMax (List.mem_map.mpr ⟨(f, t), hmem, rfl⟩)
  unfold count_workdays
  rw [getD_map_of_getElem hrow]
  exact countInRange_filter_range _ hlo hhi

theorem count_weekenddays_getD {rows : List (Int × Int)} {i : Nat}
    {f t : Int} (hrow : rows[i]? = some (f, t)) :
    (count_weekenddays rows).getD i 0 =
      ((datesInRange f t).filter (fun d => isWeekendDay d)).length := by
  have hmem : (f, t) ∈ rows := List.getElem?_mem hrow
  have hlo : listMin (rows.map Prod.fst) ≤ f :=
    listMin_le (List.mem_map.mpr ⟨(f, t), hmem, rfl⟩)
  have hhi : t ≤ listMax (rows.map Prod.snd) :=
    le_listMax (List.mem_map.mpr ⟨(f, t), hmem, rfl⟩)
  unfold count_weekenddays
  rw [getD_map_of_getElem hrow]
  exact countInRange_filter_range _ hlo hhi

theorem count_holidays_getD {hol : List Int} {rows : List (Int × Int)} {i : Nat}
    {f t : Int} (hnd : hol.Nodup) (hrow : rows[i]? = some (f, t)) :
    (count_holidays hol rows).getD i 0 =
      ((datesInRange f t).filter (fun d => hol.contains d)).length := by
  unfold count_holidays
  rw [getD_map_of_getElem hrow]
  exact countInRange_eq_filter_mem hnd f t

/-- C1 (corrected, counterexample): with the single holiday at day 2
(1970-01-03, a Saturday) and the single interval [0, 6] (seven days),
the code returns 5 workdays, 2 weekend days and 1 holiday: the weekend
holiday is counted both as a weekend day and as a holiday, so the three
counts sum to 8, not to the 7 days of the interval.  count_holidays does
not exclude weekend holidays. -/
theorem calendar_partition_counterexample :
    count_workdays [2] [((0 : Int), (6 : Int))] = [5] ∧
    count_weekenddays [((0 : Int), (6 : Int))] = [2] ∧
    count_holidays [2] [((0 : Int), (6 : Int))] = [1] ∧
    isWeekendDay 2 = true ∧
    (datesInRange 0 6).length = 7 ∧
    5 + 2 + 1 ≠ 7 := by
  refine ⟨by decide, by decide, by decide, by decide, by decide, by decide⟩

/-- C1 (amended): for every row i with from ≤ to, the workday, weekend-day
and holiday counts partition the interval PROVIDED no holiday in the
provider's list falls on a weekend; in the code a weekend holiday is
counted both as a weekend day and as a holiday (count_holidays applies no
weekend filter), so the sum then exceeds the number of days. -/
theorem calendar_partition_amended (hol : List Int) (rows : List (Int × Int))
    (i : Nat) (f t : Int) (hrow : rows[i]? = some (f, t)) (hft : f ≤ t)
    (hnd : hol.Nodup) (hnw : ∀ h ∈ hol, isWeekendDay h = false) :
    (count_workdays hol rows).getD i 0 + (count_weekenddays rows).getD i 0 +
      (count_holidays hol rows).getD i 0 = (t + 1 - f).toNat := by
  rw [count_workdays_getD hrow, count_weekenddays_getD hrow,
    count_holidays_getD hnd hrow, ← length_datesInRange f t]
  apply countP_three_partition
  intro a ha
  by_cases hw : isWeekendDay a = true
  · have hc : hol.contains a = false := by
      by_cases hmem : a ∈ hol
      · exact absurd (hnw a hmem) (by simp [hw])
      · simpa using hmem
    right; left
    exact ⟨by simp [hw], hw, hc⟩
  · have hw' : isWeekendDay a = false := by simpa using hw
    by_cases hmem : a ∈ hol
    · have hc : hol.contains a = true := by simpa using hmem
      right; right
      exact ⟨by simp [hmem], hw', hc⟩
    · have hc : hol.contains a = false := by simpa using hmem
      left
      exact ⟨by simp [hmem, hw'], hw', hc⟩

/-- C1 (amended) at a concrete input: holiday day 4 (1970-01-05, a Monday)
and interval [0, 6]: 4 workdays + 2 weekend days + 1 holiday = 7 days. -/
theorem calendar_partition_amended_witness :
    (count_workdays [4] [((0 : Int), (6 : Int))]).getD 0 0 +
      (count_weekenddays [((0 : Int), (6 : Int))]).getD 0 0 +
      (count_holidays [4] [((0 : Int), (6 : Int))]).getD 0 0 =
      ((6 : Int) + 1 - 0).toNat :=
  calendar_partition_amended [4] [(0, 6)] 0 0 6 (by decide) (by decide)
    (by decide) (by decide)

/-- C2: the weekend classification of a date with day count d since the
Unix epoch is exactly (d - 4) % 7 being 5 or 6; the epoch 1970-01-01
(day 0) is not a weekend day, and the predicate is periodic with period
7 days. -/
theorem weekend_rule_epoch_and_period :
    (∀ d : Int, isWeekendDay d = ((d - 4) % 7 == 5 || (d - 4) % 7 == 6)) ∧
    isWeekendDay 0 = false ∧
    (∀ d : Int, isWeekendDay (d + 7) = isWeekendDay d) := by
  refine ⟨fun d => rfl, by decide, fun d => ?_⟩
  unfold isWeekendDay
  have h7 : (d + 7 - 4) % 7 = (d - 4) % 7 := by omega
  rw [h7]

theorem countInRange_mono (cal : List Int) {f t f2 t2 : Int}
    (hf : f2 ≤ f) (ht : t ≤ t2) :
    countInRange cal f t ≤ countInRange cal f2 t2 := by
  unfold countInRange
  rw [← List.countP_eq_length_filter, ← List.countP_eq_length_filter]
  apply List.countP_mono_left
  intro a _ hpa
  simp only [Bool.and_eq_true, decide_eq_true_eq] at hpa ⊢
  omega

theorem length_filter_range_mono (P : Int → Bool) {f t f2 t2 : Int}
    (hf : f2 ≤ f) (ht : t ≤ t2) :
    ((datesInRange f t).filter P).length ≤ ((datesInRange f2 t2).filter P).length := by
  have heq : ((datesInRange f t).filter P).length =
      ((datesInRange f2 t2).filter
        (fun d => P d && (decide (f ≤ d) && decide (d ≤ t)))).length := by
    refine length_filter_eq_of_nodup (nodup_datesInRange f t)
      (nodup_datesInRange f2 t2) ?_
    intro x
    simp only [mem_datesInRange, Bool.and_eq_true, decide_eq_true_eq]
    constructor
    · rintro ⟨⟨hx1, hx2⟩, hP⟩
      exact ⟨⟨by omega, by omega⟩, hP, hx1, hx2⟩
    · rintro ⟨_, hP, hx1, hx2⟩
      exact ⟨⟨hx1, hx2⟩, hP⟩
  rw [heq, ← List.countP_eq_length_filter, ← List.countP_eq_length_filter]
  apply List.countP_mono_left
  intro a _ hpa
  exact (Bool.and_eq_true _ _).mp hpa |>.1

theorem datesInRange_eq_nil {lo hi : Int} (h : hi < lo) : datesInRange lo hi = [] := by
  unfold datesInRange
  have : (hi + 1 - lo).toNat = 0 := by omega
  rw [this]
  rfl

/-- C5: against a fixed holiday list, widening row i's interval (earlier
from, later to) never decreases that row's count in count_workdays,
count_holidays or count_weekenddays (the other rows may even change
arbitrarily, since row i's count depends only on its own interval); and a
row with from > to always yields count 0 in all three functions, never an
error. -/
theorem interval_counting_monotone (hol : List Int)
    (rows rows2 : List (Int × Int)) (i : Nat) (f t f2 t2 : Int)
    (h1 : rows[i]? = some (f, t)) (h2 : rows2[i]? = some (f2, t2))
    (hf : f2 ≤ f) (ht : t ≤ t2) :
    ((count_workdays hol rows).getD i 0 ≤ (count_workdays hol rows2).getD i 0 ∧
     (count_weekenddays rows).getD i 0 ≤ (count_weekenddays rows2).getD i 0 ∧
     (count_holidays hol rows).getD i 0 ≤ (count_holidays hol rows2).getD i 0) ∧
    (∀ (rows3 : List (Int × Int)) (j : Nat) (g u : Int),
      rows3[j]? = some (g, u) → u < g →
      (count_workdays hol rows3).getD j 0 = 0 ∧
      (count_weekenddays rows3).getD j 0 = 0 ∧
      (count_holidays hol rows3).getD j 0 = 0) := by
  constructor
  · refine ⟨?_, ?_, ?_⟩
    · rw [count_workdays_getD h1, count_workdays_getD h2]
      exact length_filter_range_mono _ hf ht
    · rw [count_weekenddays_getD h1, count_weekenddays_getD h2]
      exact length_filter_range_mono _ hf ht
    · unfold count_holidays
      rw [getD_map_of_getElem h1, getD_map_of_getElem h2]
      exact countInRange_mono hol hf ht
  · intro rows3 j g u hrow hgu
    refine ⟨?_, ?_, ?_⟩
    · rw [count_workdays_getD hrow, datesInRange_eq_nil hgu]
      rfl
    · rw [count_weekenddays_getD hrow, datesInRange_eq_nil hgu]
      rfl
    · unfold count_holidays
      rw [getD_map_of_getElem hrow]
      unfold countInRange
      rw [← List.countP_eq_length_filter]
      apply List.countP_eq_zero.mpr
      intro a _
      simp only [Bool.and_eq_true, decide_eq_true_eq, not_and]
      omega

/-- C5 at a concrete input: widening the single row (2, 5) to (0, 6) does
not decrease any of the three counts with holiday list [4], and the
inverted row (6, 1) yields 0 in all three. -/
theorem interval_counting_monotone_witness :
    (((count_workdays [4] [((2 : Int), (5 : Int))]).getD 0 0 ≤
        (count_workdays [4] [((0 : Int), (6 : Int))]).getD 0 0 ∧
      (count_weekenddays [((2 : Int), (5 : Int))]).getD 0 0 ≤
        (count_weekenddays [((0 : Int), (6 : Int))]).getD 0 0 ∧
      (count_holidays [4] [((2 : Int), (5 : Int))]).getD 0 0 ≤
        (count_holidays [4] [((0 : Int), (6 : Int))]).getD 0 0) ∧
     (∀ (rows3 : List (Int × Int)) (j : Nat) (g u : Int),
      rows3[j]? = some (g, u) → u < g →
      (count_workdays [4] rows3).getD j 0 = 0 ∧
      (count_weekenddays rows3).getD j 0 = 0 ∧
      (count_holidays [4] rows3).getD j 0 = 0)) ∧
    (count_workdays [4] [((6 : Int), (1 : Int))]).getD 0 0 = 0 := by
  have h := interval_counting_monotone [4] [(2, 5)] [(0, 6)] 0 2 5 0 6
    (by decide) (by decide) (by decide) (by decide)
  exact ⟨h, (h.2 [(6, 1)] 0 6 1 (by decide) (by decide)).1⟩

/-! Reference-day function from src/arbmark/functions/reference.py.
Input dates are modelled as year/month/day records; the source converts
its string inputs to datetime64[D] values and compares those, which for
valid calendar dates coincides with lexicographic comparison on
(year, month, day). -/

structure Ymd where
  y : Int
  m : Int
  d : Int
deriving DecidableEq, Repr

/-- Lexicographic date comparison, matching datetime64[D] order on valid
calendar dates. -/
def ymdLe (a b : Ymd) : Bool :=
  a.y < b.y || (a.y == b.y && (a.m < b.m || (a.m == b.m && a.d ≤ b.d)))

/-- Fixed error message raised by ref_day when some pair differs in year. -/
def refDayYearMsg : String :=
  "Function can only be applied to dates in the same year!"

/-- Fixed error message raised by ref_day when some pair differs in month. -/
def refDayMonthMsg : String :=
  "Function can only be applied to date pairs in the same month!"

/-- ref_day from src/arbmark/functions/reference.py: checks that every
from/to pair shares its year (first) and month (second), raising a
ValueError with a fixed message otherwise; for valid input, returns per
row whether the 16th of that row's month lies in [from, to] inclusive
(the reference day is built from the from-date's year and month). -/
def ref_day (rows : List (Ymd × Ymd)) : Except String (List Bool) :=
  if !(rows.all (fun p => p.1.y == p.2.y)) then
    Except.error refDayYearMsg
  else if !(rows.all (fun p => p.1.m == p.2.m)) then
    Except.error refDayMonthMsg
  else
    Except.ok (rows.map (fun p =>
      ymdLe p.1 ⟨p.1.y, p.1.m, 16⟩ && ymdLe ⟨p.1.y, p.1.m, 16⟩ p.2))

/-- C8 (corrected, counterexample): on a pair differing in year, ref_day
raises with the fixed message refDayYearMsg; the same message is produced
for a completely different offending pair, and it contains no digit at
all, so it does not name the offending items. -/
theorem ref_day_counterexample :
    ref_day [(⟨2023, 1, 1⟩, ⟨2024, 1, 31⟩)] = Except.error refDayYearMsg ∧
    ref_day [(⟨1999, 2, 2⟩, ⟨1998, 2, 5⟩)] = Except.error refDayYearMsg ∧
    refDayYearMsg.data.any (fun c => c.isDigit) = false := by
  refine ⟨rfl, rfl, ?_⟩
  decide

/-- C8 (amended): ref_day raises immediately iff some from/to pair differs
in year or in month (year mismatch checked first), but with a fixed
generic message that does not name the offending items; for inputs where
every pair shares year and month it returns, per row, whether the 16th of
that month lies within [from, to] inclusive; no partial result is
returned on failure. -/
theorem ref_day_amended (rows : List (Ymd × Ymd)) :
    ((∃ p ∈ rows, p.1.y ≠ p.2.y) → ref_day rows = Except.error refDayYearMsg) ∧
    ((∀ p ∈ rows, p.1.y = p.2.y) → (∃ p ∈ rows, p.1.m ≠ p.2.m) →
      ref_day rows = Except.error refDayMonthMsg) ∧
    ((∀ p ∈ rows, p.1.y = p.2.y ∧ p.1.m = p.2.m) →
      ref_day rows = Except.ok (rows.map (fun p =>
        ymdLe p.1 ⟨p.1.y, p.1.m, 16⟩ && ymdLe ⟨p.1.y, p.1.m, 16⟩ p.2))) := by
  refine ⟨?_, ?_, ?_⟩
  · rintro ⟨p, hp, hne⟩
    have hall : rows.all (fun q => q.1.y == q.2.y) = false := by
      rcases Bool.eq_false_or_eq_true (rows.all (fun q => q.1.y == q.2.y)) with h | h
      · exact absurd (by simpa using List.all_eq_true.mp h p hp) hne
      · exact h
    simp [ref_day, hall]
  · intro hy hm
    have hally : rows.all (fun q => q.1.y == q.2.y) = true :=
      List.all_eq_true.mpr (fun q hq => by simpa using hy q hq)
    rcases hm with ⟨p, hp, hne⟩
    have hallm : rows.all (fun q => q.1.m == q.2.m) = false := by
      rcases Bool.eq_false_or_eq_true (rows.all (fun q => q.1.m == q.2.m)) with h | h
      · exact absurd (by simpa using List.all_eq_true.mp h p hp) hne
      · exact h
    simp [ref_day, hally, hallm]
  · intro h
    have hally : rows.all (fun q => q.1.y == q.2.y) = true :=
      List.all_eq_true.mpr (fun q hq => by simpa using (h q hq).1)
    have hallm : rows.all (fun q => q.1.m == q.2.m) = true :=
      List.all_eq_true.mpr (fun q hq => by simpa using (h q hq).2)
    simp [ref_day, hally, hallm]

/-- C8 (amended) at a concrete valid input: one January 2023 pair
containing the 16th yields ok [true]. -/
theorem ref_day_amended_witness :
    ref_day [(⟨2023, 1, 10⟩, ⟨2023, 1, 20⟩)] = Except.ok [true] := by
  rw [(ref_day_amended [(⟨2023, 1, 10⟩, ⟨2023, 1, 20⟩)]).2.2 (by decide)]
  rfl

/-! Classification dispatch: np.select evaluates an ordered list of Boolean
conditions and returns the choice of the first true one, else the default.
Faithful to numpy.select for the equal-length condition/choice lists used
throughout src/arbmark/groups. -/

def npSelect : List Bool → List String → String → String
  | [], _, dflt => dflt
  | b :: bs, cs, dflt =>
    if b then cs.headD dflt else npSelect bs cs.tail dflt

theorem npSelect_all_false {conds : List Bool} {cs : List String} {dflt : String}
    (h : ∀ b ∈ conds, b = false) : npSelect conds cs dflt = dflt := by
  induction conds generalizing cs with
  | nil => rfl
  | cons b bs ih =>
    have hb := h b (List.mem_cons_self b bs)
    simp only [npSelect, hb, if_false]
    exact ih (fun c hc => h c (List.mem_cons_of_mem b hc))

theorem npSelect_mem_or_default (conds : List Bool) (cs : List String) (dflt : String) :
    npSelect conds cs dflt ∈ cs ∨ npSelect conds cs dflt = dflt := by
  induction conds generalizing cs with
  | nil => right; rfl
  | cons b bs ih =>
    cases b with
    | false =>
      simp only [npSelect, if_false]
      rcases ih cs.tail with h | h
      · left
        exact List.mem_of_mem_tail h
      · right; exact h
    | true =>
      simp only [npSelect, if_true]
      cases cs with
      | nil => right; rfl
      | cons c cs2 => left; exact List.mem_cons_self c cs2

/-- Age-group keys and labels from alder_grp in src/arbmark/groups/age.py. -/
def alderGroups : List (String × String) :=
  [("1", "16-19 år"), ("2", "20-24 år"), ("3", "25-29 år"), ("4", "30-34 år"),
   ("5", "35-39 år"), ("6", "40-44 år"), ("7", "45-49 år"), ("8", "50-54 år"),
   ("9", "55-59 år"), ("10", "60-64 år"), ("11", "65-66 år"), ("12", "67 år"),
   ("13", "68 år"), ("14", "69 år")]

/-- Display projection used by every classification: label text for
"label", key for "number", and "key label" for any other display string. -/
def displayResults (display : String) (groups : List (String × String)) : List String :=
  if display = "label" then groups.map Prod.snd
  else if display = "number" then groups.map Prod.fst
  else groups.map (fun p => p.1 ++ " " ++ p.2)

/-- alder_grp from src/arbmark/groups/age.py: 14 age-band conditions over
an integer age, np.select with default ".". -/
def alder_grp (alder : Int) (display : String) : String :=
  npSelect
    [decide (16 ≤ alder) && decide (alder ≤ 19),
     decide (20 ≤ alder) && decide (alder ≤ 24),
     decide (25 ≤ alder) && decide (alder ≤ 29),
     decide (30 ≤ alder) && decide (alder ≤ 34),
     decide (35 ≤ alder) && decide (alder ≤ 39),
     decide (40 ≤ alder) && decide (alder ≤ 44),
     decide (45 ≤ alder) && decide (alder ≤ 49),
     decide (50 ≤ alder) && decide (alder ≤ 54),
     decide (55 ≤ alder) && decide (alder ≤ 59),
     decide (60 ≤ alder) && decide (alder ≤ 64),
     (alder == 65) || (alder == 66),
     alder == 67,
     alder == 68,
     alder == 69]
    (displayResults display alderGroups)
    "."

/-- Sector keys and labels from sektor2_grp in src/arbmark/groups/sector.py. -/
def sektorGroups : List (String × String) :=
  [("110", "Statlig forvaltning"), ("550", "Kommunal forvaltning"),
   ("510", "Fylkeskommunal forvaltning"),
   ("660", "Kommunale foretak med ubegrenset ansvar"),
   ("680", "Kommunalt eide aksjeselskaper m.v.")]

/-- Display-mode-specific default of sektor2_grp. -/
def sektorDefault (display : String) : String :=
  if display = "label" then "Uoppgitt"
  else if display = "number" then "999"
  else "999 Uoppgitt"

/-- sektor2_grp from src/arbmark/groups/sector.py: five sector/subsector
conditions, np.select with a display-mode-specific default. -/
def sektor2_grp (sektor undersektor : String) (display : String) : String :=
  npSelect
    [sektor == "6100",
     (sektor == "6500") && !(undersektor == "007"),
     (sektor == "6500") && (undersektor == "007"),
     sektor == "1510",
     sektor == "1520"]
    (displayResults display sektorGroups)
    (sektorDefault display)

/-- C9: classification defaulting.  For alder_grp, every age outside
[16, 69] yields the declared default "." in every display mode; age 16
under the default label display yields "16-19 år" and age 70 yields ".".
For sektor2_grp, every sector code outside the four matched codes yields
the display-mode-specific default: "Uoppgitt" for label, "999" for
number, "999 Uoppgitt" for any other display string. -/
theorem classification_defaulting
    (display : String) (alder : Int) (sektor undersektor : String)
    (halder : alder < 16 ∨ 70 ≤ alder)
    (hsektor : sektor ∉ ["6100", "6500", "1510", "1520"]) :
    alder_grp alder display = "." ∧
    alder_grp 16 "label" = "16-19 år" ∧
    alder_grp 70 "label" = "." ∧
    sektor2_grp sektor undersektor display = sektorDefault display ∧
    sektor2_grp sektor undersektor "label" = "Uoppgitt" ∧
    sektor2_grp sektor undersektor "number" = "999" ∧
    sektor2_grp sektor undersektor "combined" = "999 Uoppgitt" := by
  have hsek : ∀ d : String, sektor2_grp sektor undersektor d = sektorDefault d := by
    intro d
    apply npSelect_all_false
    intro b hb
    have h1 : sektor ≠ "6100" := fun h => hsektor (by simp [h])
    have h2 : sektor ≠ "6500" := fun h => hsektor (by simp [h])
    have h3 : sektor ≠ "1510" := fun h => hsektor (by simp [h])
    have h4 : sektor ≠ "1520" := fun h => hsektor (by simp [h])
    fin_cases hb <;> simp [h1, h2, h3, h4]
  refine ⟨?_, by rfl, by rfl, hsek display, hsek "label", hsek "number", ?_⟩
  · apply npSelect_all_false
    intro b hb
    fin_cases hb <;> (simp; omega)
  · rw [hsek "combined"]
    rfl

/-- C9 at a concrete input: age 70 and sector "9999" with an arbitrary
display string "x" hit every stated default. -/
theorem classification_defaulting_witness :
    alder_grp 70 "x" = "." ∧
    alder_grp 16 "label" = "16-19 år" ∧
    alder_grp 70 "label" = "." ∧
    sektor2_grp "9999" "007" "x" = sektorDefault "x" ∧
    sektor2_grp "9999" "007" "label" = "Uoppgitt" ∧
    sektor2_grp "9999" "007" "number" = "999" ∧
    sektor2_grp "9999" "007" "combined" = "999 Uoppgitt" :=
  classification_defaulting "x" 70 "9999" "007" (Or.inr (by decide)) (by decide)

/-- Shift-work categories mapped to code "20" by turnuskoder. -/
def shift20 : List String :=
  ["dogn355", "helkont336", "offshore336", "skift365", "andre_skift"]

/-- turnuskoder from src/arbmark/groups/shift_work.py: np.select over three
conditions (shift categories, "ikke_skift", sentinel strings or missing),
with default "".  A missing value (modelled as none) fails the isin and
equality conditions, as in pandas, and is caught by the isna disjunct of
the third condition. -/
def turnuskoder (v : Option String) : String :=
  npSelect
    [(match v with | some s => shift20.contains s | none => false),
     (match v with | some s => s == "ikke_skift" | none => false),
     (match v with
      | some s => (["-2", "", "-1"] : List String).contains s
      | none => false) || v.isNone]
    ["20", "25", "99"]
    ""

/-- C10: the output range of turnuskoder is exactly the four strings "20",
"25", "99" and "": "20" for the five shift categories, "25" for
ikke_skift, "99" for the sentinels "-2", "", "-1" and for missing values,
and the silent fourth value "" for every other unrecognized string. -/
theorem turnuskoder_range_and_cases :
    (∀ v : Option String, turnuskoder v ∈ ["20", "25", "99", ""]) ∧
    (∀ s : String, turnuskoder (some s) =
      if s ∈ shift20 then "20"
      else if s = "ikke_skift" then "25"
      else if s ∈ ["-2", "", "-1"] then "99"
      else "") ∧
    turnuskoder none = "99" ∧
    turnuskoder (some "foo") = "" := by
  have hchar : ∀ s : String, turnuskoder (some s) =
      if s ∈ shift20 then "20"
      else if s = "ikke_skift" then "25"
      else if s ∈ ["-2", "", "-1"] then "99"
      else "" := by
    intro s
    by_cases h1 : s ∈ shift20
    · simp [turnuskoder, npSelect, h1]
    · by_cases h2 : s = "ikke_skift"
      · simp [turnuskoder, npSelect, h1, h2]
      · by_cases h3 : s ∈ (["-2", "", "-1"] : List String)
        · simp [turnuskoder, npSelect, h1, h2, h3]
        · simp [turnuskoder, npSelect, h1, h2, h3]
  refine ⟨?_, hchar, rfl, ?_⟩
  · intro v
    cases v with
    | none => simp [turnuskoder, npSelect]
    | some s =>
      rw [hchar s]
      split_ifs <;> simp
  · rw [hchar "foo"]
    rfl

/-! Merge diagnostics from src/arbmark/functions/merge.py.  Tables are
lists of (key, payload) pairs joined on the single key column; a merged
row carries the key, the two optional payloads (none models the NaN fill
of non-matched sides) and the pandas _merge indicator value. -/

inductive Ind
  | leftOnly
  | rightOnly
  | both
deriving DecidableEq, Repr

structure MRow where
  key : Int
  lval : Option String
  rval : Option String
  ind : Ind
deriving DecidableEq, Repr

/-- Rows of a table whose key equals k. -/
def matchesOf (t : List (Int × String)) (k : Int) : List (Int × String) :=
  t.filter (fun p => p.1 == k)

inductive How
  | inner
  | left
  | right
  | outer
deriving DecidableEq, Repr

/-- Left-join part shared by the left and outer modes: each left row is
paired with every matching right row, or emitted once with a missing
right side. -/
def mergeLeftPart (l r : List (Int × String)) : List MRow :=
  l.flatMap (fun p =>
    let ms := matchesOf r p.1
    if ms.isEmpty then [⟨p.1, some p.2, none, Ind.leftOnly⟩]
    else ms.map (fun q => ⟨p.1, some p.2, some q.2, Ind.both⟩))

/-- Right-join counterpart of mergeLeftPart. -/
def mergeRightPart (l r : List (Int × String)) : List MRow :=
  r.flatMap (fun q =>
    let ms := matchesOf l q.1
    if ms.isEmpty then [⟨q.1, none, some q.2, Ind.rightOnly⟩]
    else ms.map (fun p => ⟨q.1, some p.2, some q.2, Ind.both⟩))

/-- Model of pd.merge(left, right, how, on, indicator=True): the joined
rows tagged with the _merge indicator. -/
def mergeInd (l r : List (Int × String)) (how : How) : List MRow :=
  match how with
  | How.inner => l.flatMap (fun p =>
      (matchesOf r p.1).map (fun q => ⟨p.1, some p.2, some q.2, Ind.both⟩))
  | How.left => mergeLeftPart l r
  | How.right => mergeRightPart l r
  | How.outer => mergeLeftPart l r ++
      (r.filter (fun q => (matchesOf l q.1).isEmpty)).map
        (fun q => ⟨q.1, none, some q.2, Ind.rightOnly⟩)

/-- Model of the plain pd.merge(left, right, how, on) with no indicator. -/
def pd_merge (l r : List (Int × String)) (how : How) :
    List (Int × Option String × Option String) :=
  match how with
  | How.inner => l.flatMap (fun p =>
      (matchesOf r p.1).map (fun q => (p.1, some p.2, some q.2)))
  | How.left => l.flatMap (fun p =>
      let ms := matchesOf r p.1
      if ms.isEmpty then [(p.1, some p.2, (none : Option String))]
      else ms.map (fun q => (p.1, some p.2, some q.2)))
  | How.right => r.flatMap (fun q =>
      let ms := matchesOf l q.1
      if ms.isEmpty then [(q.1, (none : Option String), some q.2)]
      else ms.map (fun p => (q.1, some p.2, some q.2)))
  | How.outer => (l.flatMap (fun p =>
      let ms := matchesOf r p.1
      if ms.isEmpty then [(p.1, some p.2, (none : Option String))]
      else ms.map (fun q => (p.1, some p.2, some q.2))))
      ++ (r.filter (fun q => (matchesOf l q.1).isEmpty)).map
        (fun q => (q.1, none, some q.2))

/-- Projection dropping the _merge indicator column before returning. -/
def dropInd (m : MRow) : Int × Option String × Option String :=
  (m.key, m.lval, m.rval)

/-- indicate_merge from src/arbmark/functions/merge.py: merge with
indicator, print diagnostics (a pure side channel), drop _merge, return. -/
def indicate_merge (l r : List (Int × String)) (how : How) :
    List (Int × Option String × Option String) :=
  (mergeInd l r how).map dropInd

/-- Key-duplication flag: merged key appears at least twice in the given
side's pre-join table (left.duplicated(subset=on, keep=False) plus the
isin lookup). -/
def dupKey (t : List (Int × String)) (k : Int) : Bool :=
  decide (2 ≤ (t.map Prod.fst).count k)

/-- The eight np.select conditions of indicate_merge, in source order. -/
def mergeConds (l r : List (Int × String)) (m : MRow) : List Bool :=
  [decide (m.ind = Ind.leftOnly) && !(dupKey l m.key),
   decide (m.ind = Ind.rightOnly) && !(dupKey r m.key),
   decide (m.ind = Ind.leftOnly) && dupKey l m.key,
   decide (m.ind = Ind.rightOnly) && dupKey r m.key,
   decide (m.ind = Ind.both) && (!(dupKey l m.key) && !(dupKey r m.key)),
   decide (m.ind = Ind.both) && (dupKey l m.key && !(dupKey r m.key)),
   decide (m.ind = Ind.both) && (!(dupKey l m.key) && dupKey r m.key),
   decide (m.ind = Ind.both) && (dupKey r m.key && dupKey l m.key)]

/-- The eight category names of indicate_merge, in source order. -/
def mergeChoices : List String :=
  ["one-to-zero", "zero-to-one", "many-to-zero", "zero-to-many",
   "one-to-one", "many-to-one", "one-to-many", "many-to-many"]

/-- Per-row merge-type classification (np.select with default "unknown"). -/
def merge_type (l r : List (Int × String)) (m : MRow) : String :=
  npSelect (mergeConds l r m) mergeChoices "unknown"

theorem npSelect_mem_of_true : ∀ (conds : List Bool) (cs : List String) (dflt : String),
    conds.length ≤ cs.length → true ∈ conds → npSelect conds cs dflt ∈ cs := by
  intro conds
  induction conds with
  | nil => intro cs dflt _ hmem; cases hmem
  | cons b bs ih =>
    intro cs dflt hlen hmem
    cases cs with
    | nil => simp at hlen
    | cons c cs2 =>
      cases b with
      | true => simp [npSelect]
      | false =>
        have hbs : true ∈ bs := by
          rcases List.mem_cons.mp hmem with h | h
          · exact absurd h.symm Bool.false_ne_true
          · exact h
        have := ih cs2 dflt (by simpa using hlen) hbs
        simp only [npSelect, if_false]
        exact List.mem_cons_of_mem c (by simpa using this)

theorem sum_map_add (cs : List String) (f g : String → Nat) :
    (cs.map (fun c => f c + g c)).sum = (cs.map f).sum + (cs.map g).sum := by
  induction cs with
  | nil => rfl
  | cons c cs ih => simp [ih]; omega

theorem sum_map_ite_eq_count (cs : List String) (x : String) :
    (cs.map (fun c => if c = x then 1 else 0)).sum = cs.count x := by
  induction cs with
  | nil => rfl
  | cons c cs ih =>
    by_cases h : c = x
    · subst h
      simp [List.count_cons, ih]
      omega
    · simp [List.count_cons, h, Ne.symm h, ih]

theorem sum_counts_eq_length {cs : List String} (hnd : cs.Nodup) :
    ∀ (l : List String), (∀ x ∈ l, x ∈ cs) →
      (cs.map (fun c => l.count c)).sum = l.length := by
  intro l
  induction l with
  | nil => intro _; simp
  | cons x xs ih =>
    intro hx
    have hxin : x ∈ cs := hx x (List.mem_cons_self x xs)
    have ihx := ih (fun y hy => hx y (List.mem_cons_of_mem x hy))
    have hstep : (cs.map (fun c => (x :: xs).count c)).sum =
        (cs.map (fun c => xs.count c + if c = x then 1 else 0)).sum := by
      congr 1
      refine List.map_congr_left ?_
      intro c _
      rw [List.count_cons]
      by_cases hcx : c = x
      · subst hcx
        simp
      · simp [hcx, Ne.symm hcx]
    rw [hstep, sum_map_add, sum_map_ite_eq_count, ihx,
      List.count_eq_one_of_mem hnd hxin]
    simp

theorem mergeConds_count_true (l r : List (Int × String)) (m : MRow) :
    (mergeConds l r m).count true = 1 := by
  rcases m with ⟨k, lv, rv, ind⟩
  cases ind <;> cases hdl : dupKey l k <;> cases hdr : dupKey r k <;>
    simp [mergeConds, hdl, hdr, List.count_cons]

theorem merge_type_mem (l r : List (Int × String)) (m : MRow) :
    merge_type l r m ∈ mergeChoices := by
  unfold merge_type
  apply npSelect_mem_of_true
  · simp [mergeConds, mergeChoices]
  · have h := mergeConds_count_true l r m
    have hpos : 0 < (mergeConds l r m).count true := by omega
    exact List.count_pos_iff.mp hpos

/-- C6: indicate_merge returns exactly the rows of a plain merge with the
same parameters (the indicator column is dropped); the eight cardinality
conditions are exhaustive and mutually exclusive on every merged row
(exactly one condition holds, so no row falls into the "unknown"
default), and hence the eight category counts sum to the merged row count
for every how mode. -/
theorem indicate_merge_pure_and_exhaustive :
    (∀ (l r : List (Int × String)) (how : How),
      indicate_merge l r how = pd_merge l r how) ∧
    (∀ (l r : List (Int × String)) (m : MRow),
      (mergeConds l r m).count true = 1) ∧
    (∀ (l r : List (Int × String)) (how : How),
      ((mergeInd l r how).map (merge_type l r)).count "unknown" = 0) ∧
    (∀ (l r : List (Int × String)) (how : How),
      (mergeChoices.map
        (fun c => ((mergeInd l r how).map (merge_type l r)).count c)).sum =
        (mergeInd l r how).length) := by
  refine ⟨?_, mergeConds_count_true, ?_, ?_⟩
  · intro l r how
    cases how <;>
      simp [indicate_merge, mergeInd, pd_merge, mergeLeftPart, mergeRightPart,
        dropInd, List.map_flatMap, List.map_map, Function.comp_def,
        apply_ite (List.map dropInd)]
  · intro l r how
    rw [List.count_eq_zero]
    intro hmem
    rcases List.mem_map.mp hmem with ⟨m, _, hm⟩
    have := merge_type_mem l r m
    rw [hm] at this
    exact absurd this (by decide)
  · intro l r how
    rw [← List.length_map (mergeInd l r how) (merge_type l r)]
    exact sum_counts_eq_length (by decide) _
      (fun x hx => by
        rcases List.mem_map.mp hx with ⟨m, _, hm⟩
        rw [← hm]
        exact merge_type_mem l r m)

/-! Combinatorial aggregator from src/arbmark/functions/aggregation.py.
A DataFrame is a column-name list plus rows; each row is an association
list from column name to cell.  Cells are strings or integers (the group
columns hold strings, the value columns numbers). -/

inductive Cell
  | str (s : String)
  | num (n : Int)
deriving DecidableEq, Repr

structure DataFrame where
  cols : List String
  rows : List (List (String × Cell))
deriving DecidableEq, Repr

/-- Value of column c in a row (first matching entry). -/
def lookupCell (row : List (String × Cell)) (c : String) : Cell :=
  ((row.find? (fun p => p.1 == c)).map Prod.snd).getD (Cell.str "")

/-- An aggregation function maps the cells of one value column within one
group of rows to an aggregate cell. -/
def AggFun : Type := List Cell → Cell

/-- A value of the agg_func dictionary: a single function or a list of
functions (pandas then produces one output column per function). -/
inductive AggVal
  | single (f : AggFun)
  | funcs (fs : List AggFun)

/-- Model of the loop over agg_func.items() in proc_sums: a list value with
exactly one entry is replaced by that entry.  The source performs this
assignment on the caller's dictionary object in place, so after a call to
proc_sums the caller's dictionary holds exactly this processed value. -/
def procAggDict (agg : List (String × AggVal)) : List (String × AggVal) :=
  agg.map (fun p =>
    match p.2 with
    | AggVal.funcs [f] => (p.1, AggVal.single f)
    | _ => p)

def cellInt : Cell → Int
  | Cell.str _ => 0
  | Cell.num n => n

/-- The default "sum" aggregation. -/
def sumAgg : AggFun := fun cs => Cell.num ((cs.map cellInt).sum)

/-- Group key of a row over a subset of the grouping columns. -/
def keyOf (subset : List String) (row : List (String × Cell)) : List Cell :=
  subset.map (fun c => lookupCell row c)

/-- One output row of proc_sums: the group-column cells (one entry per
grouping column, actual value or "Total"), the aggregated value cells,
and the level tag. -/
structure OutRow where
  gvals : List (String × Cell)
  avals : List (String × Cell)
  level : Nat

/-- Apply the aggregation dictionary to one group of rows. -/
def aggApply (aggd : List (String × AggVal)) (rs : List (List (String × Cell))) :
    List (String × Cell) :=
  aggd.flatMap (fun p =>
    match p.2 with
    | AggVal.single f => [(p.1, f (rs.map (fun r => lookupCell r p.1)))]
    | AggVal.funcs fs => fs.map (fun f => (p.1, f (rs.map (fun r => lookupCell r p.1)))))

/-- One groupby block of proc_sums: group the rows by their key over
subset (distinct keys, one output row each), aggregate each group, write
the key values into the subset columns, "Total" into the remaining group
columns, and tag with the level. -/
def subsetAgg (rows : List (List (String × Cell))) (groups subset : List String)
    (aggd : List (String × AggVal)) (lvl : Nat) : List OutRow :=
  ((rows.map (keyOf subset)).dedup).map (fun k =>
    { gvals := groups.map (fun c =>
        (c, if subset.contains c then lookupCell (subset.zip k) c
            else Cell.str "Total")),
      avals := aggApply aggd (rows.filter (fun r => keyOf subset r == k)),
      level := lvl })

/-- Grand-total block: the source copies the frame, overwrites every group
column with "Total" and groups by all group columns, yielding one
all-"Total" row aggregating every data row when the frame is nonempty,
and nothing when it is empty. -/
def grandTotal (rows : List (List (String × Cell))) (groups : List String)
    (aggd : List (String × AggVal)) : List OutRow :=
  if rows.isEmpty then []
  else [{ gvals := groups.map (fun c => (c, Cell.str "Total")),
          avals := aggApply aggd rows,
          level := 0 }]

/-- itertools.combinations: all size-k sublists in enumeration order. -/
def combinations : Nat → List String → List (List String)
  | 0, _ => [[]]
  | _ + 1, [] => []
  | k + 1, x :: xs =>
      ((combinations k xs).map (fun s => x :: s)) ++ combinations (k + 1) xs

/-- The aggregation part of proc_sums: the level-0 grand total first, then
for each subset size i = 1..N in ascending order every size-i subset
block, concatenated in enumeration order. -/
def proc_sums_core (rows : List (List (String × Cell))) (groups : List String)
    (aggd : List (String × AggVal)) : List OutRow :=
  grandTotal rows groups aggd ++
    (List.range groups.length).flatMap (fun i =>
      (combinations (i + 1) groups).flatMap (fun subset =>
        subsetAgg rows groups subset aggd (i + 1)))

inductive PsError
  | missingColumns (cols : List String)
  | nonNumericValues (cols : List String)
deriving Repr

def isNumCell : Cell → Bool
  | Cell.num _ => true
  | Cell.str _ => false

/-- Column dtype test of the model: a column is numeric when every row
holds a numeric cell there (pd.api.types.is_numeric_dtype). -/
def isNumericCol (df : DataFrame) (c : String) : Bool :=
  df.rows.all (fun r => isNumCell (lookupCell r c))

/-- The values list after the None-handling prelude of proc_sums: values
if given, else the keys of agg_func if given, else empty. -/
def procValues (values : Option (List String))
    (aggf : Option (List (String × AggVal))) : List String :=
  match values with
  | some v => v
  | none =>
    match aggf with
    | some a => a.map Prod.fst
    | none => []

/-- Missing-column scan of the single validation loop over
set(groups + values). -/
def missingCols (df : DataFrame) (req : List String) : List String :=
  req.dedup.filter (fun c => !(df.cols.contains c))

/-- Non-numeric scan of the same loop (its elif branch): present columns
that are in values and not numeric. -/
def nonNumericCols (df : DataFrame) (req vals : List String) : List String :=
  req.dedup.filter (fun c =>
    df.cols.contains c && vals.contains c && !(isNumericCol df c))

/-- Aggregation dictionary actually used: the processed caller dictionary
if given, else sum for every value column. -/
def buildAggDict (vals : List String)
    (aggf : Option (List (String × AggVal))) : List (String × AggVal) :=
  match aggf with
  | some a => procAggDict a
  | none => vals.map (fun c => (c, AggVal.single sumAgg))

/-- proc_sums from src/arbmark/functions/aggregation.py: validate that all
group/value columns exist (error naming all missing columns), validate
numeric dtypes unless an agg_func dictionary was supplied (error naming
all offending columns), then aggregate over every subset of the grouping
columns. -/
def proc_sums (df : DataFrame) (groups : List String)
    (values : Option (List String)) (aggf : Option (List (String × AggVal))) :
    Except PsError (List OutRow) :=
  if missingCols df (groups ++ procValues values aggf) ≠ [] then
    Except.error (PsError.missingColumns
      (missingCols df (groups ++ procValues values aggf)))
  else if nonNumericCols df (groups ++ procValues values aggf)
      (procValues values aggf) ≠ [] ∧ aggf.isNone = true then
    Except.error (PsError.nonNumericValues
      (nonNumericCols df (groups ++ procValues values aggf)
        (procValues values aggf)))
  else
    Except.ok (proc_sums_core df.rows groups
      (buildAggDict (procValues values aggf) aggf))

/-- Single-row test frame: group column G, a string value column A and a
numeric value column B. -/
def dfC4 : DataFrame :=
  ⟨["G", "A", "B"],
   [[("G", Cell.str "g1"), ("A", Cell.str "x"), ("B", Cell.num 1)]]⟩

/-- C4 (corrected, counterexample): column A is in values and is not
numeric, and the supplied agg_func dictionary has no entry for A (only
for B) — yet proc_sums succeeds, because the source only checks whether
an agg_func dictionary was supplied at all, not whether it covers the
offending column. -/
theorem proc_sums_validation_counterexample :
    (proc_sums dfC4 ["G"] (some ["A", "B"])
      (some [("B", AggVal.single sumAgg)])).isOk = true ∧
    isNumericCol dfC4 "A" = false ∧
    ([("B", AggVal.single sumAgg)].map Prod.fst).contains "A" = false := by
  refine ⟨rfl, rfl, rfl⟩

/-- C4 (amended): proc_sums raises a MissingColumnError naming all missing
columns at once when some group/value column is absent; it raises a
NonNumericValueError naming all non-numeric value columns at once when
such columns exist AND no agg_func dictionary was supplied at all (a
dictionary supplied for any column silences the check for every column);
otherwise it succeeds.  No partial result accompanies an error. -/
theorem proc_sums_validation_amended (df : DataFrame) (groups : List String)
    (values : Option (List String)) (aggf : Option (List (String × AggVal))) :
    (missingCols df (groups ++ procValues values aggf) ≠ [] →
      proc_sums df groups values aggf =
        Except.error (PsError.missingColumns
          (missingCols df (groups ++ procValues values aggf)))) ∧
    (∀ c, c ∈ groups ++ procValues values aggf → df.cols.contains c = false →
      c ∈ missingCols df (groups ++ procValues values aggf)) ∧
    (missingCols df (groups ++ procValues values aggf) = [] →
      nonNumericCols df (groups ++ procValues values aggf)
        (procValues values aggf) ≠ [] →
      aggf = none →
      proc_sums df groups values aggf =
        Except.error (PsError.nonNumericValues
          (nonNumericCols df (groups ++ procValues values aggf)
            (procValues values aggf)))) ∧
    (∀ c, c ∈ procValues values aggf → df.cols.contains c = true →
      isNumericCol df c = false →
      c ∈ nonNumericCols df (groups ++ procValues values aggf)
        (procValues values aggf)) ∧
    (missingCols df (groups ++ procValues values aggf) = [] →
      (aggf ≠ none ∨ nonNumericCols df (groups ++ procValues values aggf)
        (procValues values aggf) = []) →
      proc_sums df groups values aggf =
        Except.ok (proc_sums_core df.rows groups
          (buildAggDict (procValues values aggf) aggf))) := by
  refine ⟨?_, ?_, ?_, ?_, ?_⟩
  · intro h1
    simp [proc_sums, h1]
  · intro c hc hnc
    unfold missingCols
    rw [List.mem_filter]
    refine ⟨List.mem_dedup.mpr hc, ?_⟩
    show (!(df.cols.contains c)) = true
    rw [hnc]
    rfl
  · intro h1 h2 h3
    subst h3
    simp [proc_sums, h1, h2]
  · intro c hc hcont hnum
    unfold nonNumericCols
    rw [List.mem_filter]
    refine ⟨List.mem_dedup.mpr (List.mem_append_right groups hc), ?_⟩
    have hvc : (procValues values aggf).contains c = true := by
      simp only [List.contains_eq_any_beq, List.any_eq_true, beq_iff_eq]
      exact ⟨c, hc, rfl⟩
    show (df.cols.contains c && (procValues values aggf).contains c &&
      !(isNumericCol df c)) = true
    rw [hcont, hvc, hnum]
    rfl
  · intro h1 hdisj
    have h2 : ¬(nonNumericCols df (groups ++ procValues values aggf)
        (procValues values aggf) ≠ [] ∧ aggf.isNone = true) := by
      rcases hdisj with h | h
      · rintro ⟨_, hnone⟩
        exact h (Option.isNone_iff_eq_none.mp hnone)
      · rintro ⟨hne, _⟩
        exact hne h
    unfold proc_sums
    rw [if_neg (show ¬(missingCols df (groups ++ procValues values aggf) ≠ [])
      from by simp [h1]), if_neg h2]

/-- C4 (amended) at concrete inputs: a missing column Z produces the
missing-columns error naming Z, and the valid call on the numeric column
B succeeds. -/
theorem proc_sums_validation_amended_witness :
    proc_sums dfC4 ["Z"] none none =
      Except.error (PsError.missingColumns ["Z"]) ∧
    proc_sums dfC4 ["G"] (some ["B"]) none =
      Except.ok (proc_sums_core dfC4.rows ["G"]
        (buildAggDict ["B"] none)) := by
  constructor
  · have h := (proc_sums_validation_amended dfC4 ["Z"] none none).1
      (by intro hx; simp [missingCols, dfC4, procValues] at hx)
    rw [h]
    rfl
  · exact (proc_sums_validation_amended dfC4 ["G"] (some ["B"]) none).2.2.2.2
      (by rfl) (Or.inr (by rfl))

/-- C7 (corrected, counterexample): the source mutates the caller's
agg_func dictionary in place (agg_func[col] = funcs[0]); after a call
whose dictionary maps C to a one-element function list, the caller's
dictionary no longer equals what was passed in. -/
theorem proc_sums_no_mutation_counterexample :
    procAggDict [("C", AggVal.funcs [sumAgg])] ≠ [("C", AggVal.funcs [sumAgg])] := by
  intro h
  simp [procAggDict] at h

/-- C7 (amended): proc_sums operates on a copy of the input DataFrame, but
it rewrites the caller-supplied agg_func dictionary in place whenever an
entry holds a one-element function list (unwrapping it to the bare
function); the dictionary is left unchanged exactly when no entry is a
one-element list. -/
theorem proc_sums_no_mutation_amended (agg : List (String × AggVal))
    (h : ∀ p ∈ agg, ∀ fs, p.2 = AggVal.funcs fs → fs.length ≠ 1) :
    procAggDict agg = agg := by
  induction agg with
  | nil => rfl
  | cons p ps ih =>
    have hp := h p (List.mem_cons_self p ps)
    have hstep : (match p.2 with
        | AggVal.funcs [f] => (p.1, AggVal.single f)
        | _ => p) = p := by
      rcases p with ⟨c, v⟩
      cases v with
      | single f => rfl
      | funcs fs =>
        cases fs with
        | nil => rfl
        | cons f fs2 =>
          cases fs2 with
          | nil => exact absurd (rfl : [f].length = 1) (hp [f] rfl)
          | cons g fs3 => rfl
    have ihp := ih (fun q hq => h q (List.mem_cons_of_mem p hq))
    simp only [procAggDict, List.map_cons] at ihp ⊢
    rw [hstep, ihp]

/-- C7 (amended) at a concrete input: a dictionary with a bare function
and a two-element list is returned unchanged. -/
theorem proc_sums_no_mutation_amended_witness :
    procAggDict [("C", AggVal.single sumAgg), ("D", AggVal.funcs [sumAgg, sumAgg])] =
      [("C", AggVal.single sumAgg), ("D", AggVal.funcs [sumAgg, sumAgg])] := by
  apply proc_sums_no_mutation_amended
  intro p hp fs hfs
  rcases List.mem_cons.mp hp with rfl | hp2
  · simp at hfs
  · rcases List.mem_cons.mp hp2 with rfl | hp3
    · simp only at hfs
      injection hfs with hfs2
      subst hfs2
      simp
    · cases hp3

/-! Structural lemmas for the proc_sums output shape. -/

theorem combinations_sublist_length :
    ∀ (l : List String) (k : Nat) (s : List String),
      s ∈ combinations k l → s.Sublist l ∧ s.length = k := by
  intro l
  induction l with
  | nil =>
    intro k s hs
    cases k with
    | zero =>
      simp only [combinations, List.mem_singleton] at hs
      subst hs
      exact ⟨List.Sublist.refl [], rfl⟩
    | succ k => cases hs
  | cons x xs ih =>
    intro k s hs
    cases k with
    | zero =>
      simp only [combinations, List.mem_singleton] at hs
      subst hs
      exact ⟨List.nil_sublist _, rfl⟩
    | succ k =>
      simp only [combinations, List.mem_append] at hs
      rcases hs with hs | hs
      · rcases List.mem_map.mp hs with ⟨s2, hs2, rfl⟩
        rcases ih k s2 hs2 with ⟨hsub, hlen⟩
        exact ⟨hsub.cons₂ x, by simp [hlen]⟩
      · rcases ih (k + 1) s hs with ⟨hsub, hlen⟩
        exact ⟨hsub.cons x, hlen⟩

theorem combinations_ne_nil :
    ∀ (l : List String) (k : Nat), k ≤ l.length → combinations k l ≠ [] := by
  intro l
  induction l with
  | nil =>
    intro k hk
    have : k = 0 := by simpa using hk
    subst this
    simp [combinations]
  | cons x xs ih =>
    intro k hk
    cases k with
    | zero => simp [combinations]
    | succ k =>
      have hk2 : k ≤ xs.length := by simpa using hk
      have hmap : (combinations k xs).map (fun s => x :: s) ≠ [] := by
        simpa using ih k hk2
      exact List.append_ne_nil_of_left_ne_nil hmap _

theorem lookupCell_zip_map (g : String → Cell) :
    ∀ (subset : List String) (c : String), c ∈ subset →
      lookupCell (subset.zip (subset.map g)) c = g c := by
  intro subset
  induction subset with
  | nil => intro c hc; cases hc
  | cons d ds ih =>
    intro c hc
    simp only [List.map_cons, List.zip_cons_cons]
    unfold lookupCell
    rw [List.find?_cons]
    cases hdc : (d == c) with
    | true =>
      have : d = c := by simpa using hdc
      subst this
      simp [hdc]
    | false =>
      have hcd : c ∈ ds := by
        rcases List.mem_cons.mp hc with rfl | h
        · simp at hdc
        · exact h
      simpa [hdc] using ih c hcd

theorem mem_subsetAgg_level {rows : List (List (String × Cell))}
    {groups subset : List String} {aggd : List (String × AggVal)} {lvl : Nat}
    {row : OutRow} (h : row ∈ subsetAgg rows groups subset aggd lvl) :
    row.level = lvl := by
  rcases List.mem_map.mp h with ⟨k, _, rfl⟩
  rfl

theorem mem_subsetAgg_gvals {rows : List (List (String × Cell))}
    {groups subset : List String} {aggd : List (String × AggVal)} {lvl : Nat}
    {row : OutRow} (h : row ∈ subsetAgg rows groups subset aggd lvl) :
    ∃ r ∈ rows, row.gvals = groups.map (fun c =>
      (c, if subset.contains c then lookupCell r c else Cell.str "Total")) := by
  rcases List.mem_map.mp h with ⟨k, hk, rfl⟩
  rcases List.mem_map.mp (List.mem_dedup.mp hk) with ⟨r, hr, rfl⟩
  refine ⟨r, hr, ?_⟩
  refine List.map_congr_left ?_
  intro c hc
  by_cases hcs : subset.contains c = true
  · have hcmem : c ∈ subset := by
      simpa [List.contains_eq_any_beq, List.any_eq_true, beq_iff_eq] using hcs
    have := lookupCell_zip_map (fun c2 => lookupCell r c2) subset c hcmem
    simp only [hcs, if_true]
    rw [keyOf]
    rw [this]
  · have hnm : c ∉ subset := by
      intro hmem
      exact hcs (by simpa using hmem)
    simp [hnm]

theorem filter_mem_length {groups subset : List String} (hnd : groups.Nodup)
    (hsub : subset.Sublist groups) :
    (groups.filter (fun c => subset.contains c)).length = subset.length := by
  have hsnd : subset.Nodup := hnd.sublist hsub
  have heq := length_filter_eq_of_nodup hnd hsnd
    (p := fun c => subset.contains c) (q := fun _ => true)
    (by
      intro x
      constructor
      · rintro ⟨hxg, hxc⟩
        exact ⟨by simpa using hxc, rfl⟩
      · rintro ⟨hxs, _⟩
        exact ⟨hsub.subset hxs, by simpa using hxs⟩)
  rw [heq, List.filter_true]

theorem gvals_active_count {groups subset : List String} (hnd : groups.Nodup)
    (hsub : subset.Sublist groups) (v : String → Cell)
    (hv : ∀ c ∈ groups, c ∈ subset → v c ≠ Cell.str "Total") :
    ((groups.map (fun c =>
      (c, if subset.contains c then v c else Cell.str "Total"))).filter
        (fun p => !(p.2 == Cell.str "Total"))).length = subset.length := by
  rw [← List.countP_eq_length_filter, List.countP_map]
  have hcongr : groups.countP ((fun (p : String × Cell) => !(p.2 == Cell.str "Total")) ∘
      (fun c => (c, if subset.contains c then v c else Cell.str "Total"))) =
      groups.countP (fun c => subset.contains c) := by
    apply List.countP_congr
    intro c hc
    by_cases hcs : c ∈ subset
    · have h1 : subset.contains c = true := by simpa using hcs
      have h2 : v c ≠ Cell.str "Total" := hv c hc hcs
      simp [Function.comp, h1, h2]
    · have h1 : subset.contains c = false := by simpa using hcs
      simp [Function.comp, h1, hcs]
  rw [hcongr, List.countP_eq_length_filter]
  exact filter_mem_length hnd hsub

theorem gvals_total_count (groups : List String) :
    ((groups.map (fun c => (c, Cell.str "Total"))).filter
      (fun p => !(p.2 == Cell.str "Total"))).length = 0 := by
  rw [← List.countP_eq_length_filter, List.countP_map]
  apply List.countP_eq_zero.mpr
  intro c _
  simp [Function.comp]

theorem mem_proc_sums_core {rows : List (List (String × Cell))}
    {groups : List String} {aggd : List (String × AggVal)} {row : OutRow} :
    row ∈ proc_sums_core rows groups aggd ↔
      row ∈ grandTotal rows groups aggd ∨
      ∃ i, i < groups.length ∧ ∃ subset ∈ combinations (i + 1) groups,
        row ∈ subsetAgg rows groups subset aggd (i + 1) := by
  simp [proc_sums_core, List.mem_append, List.mem_flatMap, List.mem_range]

theorem pairwise_le_of_all_eq :
    ∀ (l : List Nat) (c : Nat), (∀ x ∈ l, x = c) →
      l.Pairwise (fun a b => a ≤ b) := by
  intro l
  induction l with
  | nil => intro c _; exact List.Pairwise.nil
  | cons x xs ih =>
    intro c h
    refine List.Pairwise.cons ?_ (ih c (fun y hy => h y (List.mem_cons_of_mem x hy)))
    intro y hy
    rw [h x (List.mem_cons_self x xs), h y (List.mem_cons_of_mem x hy)]

theorem levels_flat_aux (rows : List (List (String × Cell)))
    (groups : List String) (aggd : List (String × AggVal)) :
    ∀ N : Nat,
      (((List.range N).flatMap (fun i =>
        (combinations (i + 1) groups).flatMap (fun subset =>
          subsetAgg rows groups subset aggd (i + 1)))).map OutRow.level).Pairwise
            (fun a b => a ≤ b) ∧
      (∀ v ∈ ((List.range N).flatMap (fun i =>
        (combinations (i + 1) groups).flatMap (fun subset =>
          subsetAgg rows groups subset aggd (i + 1)))).map OutRow.level, v ≤ N) := by
  intro N
  induction N with
  | zero =>
    constructor
    · simp
    · intro v hv
      simp at hv
  | succ n ih =>
    rw [List.range_succ n, List.flatMap_append, List.map_append]
    have hblock : ∀ v ∈ (([n].flatMap (fun i =>
        (combinations (i + 1) groups).flatMap (fun subset =>
          subsetAgg rows groups subset aggd (i + 1)))).map OutRow.level),
        v = n + 1 := by
      intro v hv
      rcases List.mem_map.mp hv with ⟨row, hrow, rfl⟩
      simp only [List.flatMap_cons, List.flatMap_nil, List.append_nil] at hrow
      rcases List.mem_flatMap.mp hrow with ⟨subset, _, hrow2⟩
      exact mem_subsetAgg_level hrow2
    constructor
    · apply List.pairwise_append.mpr
      refine ⟨ih.1, pairwise_le_of_all_eq _ (n + 1) hblock, ?_⟩
      intro x hx y hy
      have hx2 := ih.2 x hx
      rw [hblock y hy]
      omega
    · intro v hv
      rcases List.mem_append.mp hv with h | h
      · have := ih.2 v h
        omega
      · rw [hblock v h]

theorem contains_eq_false_of_not_mem {l : List String} {c : String}
    (h : c ∉ l) : l.contains c = false := by
  rcases Bool.eq_false_or_eq_true (l.contains c) with hb | hb
  · exact absurd (by simpa using hb) h
  · exact hb

theorem proc_sums_core_shape (rows : List (List (String × Cell)))
    (groups : List String) (aggd : List (String × AggVal))
    (hrows : rows ≠ []) (hg : groups ≠ []) (hnd : groups.Nodup)
    (htot : ∀ r ∈ rows, ∀ c ∈ groups, lookupCell r c ≠ Cell.str "Total") :
    (∀ row ∈ proc_sums_core rows groups aggd, row.level =
      (row.gvals.filter (fun p => !(p.2 == Cell.str "Total"))).length) ∧
    (∀ row ∈ proc_sums_core rows groups aggd, row.level ≤ groups.length) ∧
    (∀ lv, lv ≤ groups.length →
      ∃ row ∈ proc_sums_core rows groups aggd, row.level = lv) ∧
    (∃ gt, (proc_sums_core rows groups aggd).head? = some gt ∧ gt.level = 0 ∧
      gt.gvals = groups.map (fun c => (c, Cell.str "Total"))) ∧
    (∀ row ∈ proc_sums_core rows groups aggd, row.level ≠ groups.length →
      ∃ p ∈ row.gvals, p.2 = Cell.str "Total") ∧
    ((proc_sums_core rows groups aggd).map OutRow.level).Pairwise
      (fun a b => a ≤ b) := by
  have hie : rows.isEmpty = false := by
    cases rows with
    | nil => exact absurd rfl hrows
    | cons a l => rfl
  have hgt : grandTotal rows groups aggd =
      [⟨groups.map (fun c => (c, Cell.str "Total")), aggApply aggd rows, 0⟩] := by
    simp [grandTotal, hie]
  refine ⟨?_, ?_, ?_, ?_, ?_, ?_⟩
  · intro row hrow
    rcases mem_proc_sums_core.mp hrow with hgtm | ⟨i, hi, subset, hsubm, hrm⟩
    · rw [hgt] at hgtm
      rcases List.mem_singleton.mp hgtm with rfl
      exact (gvals_total_count groups).symm
    · rcases combinations_sublist_length groups (i + 1) subset hsubm with ⟨hsub, hlen⟩
      have hlvl := mem_subsetAgg_level hrm
      rcases mem_subsetAgg_gvals hrm with ⟨r, hr, hgv⟩
      rw [hlvl, hgv,
        gvals_active_count hnd hsub (fun c => lookupCell r c)
          (fun c hc _ => htot r hr c hc), hlen]
  · intro row hrow
    rcases mem_proc_sums_core.mp hrow with hgtm | ⟨i, hi, subset, hsubm, hrm⟩
    · rw [hgt] at hgtm
      rcases List.mem_singleton.mp hgtm with rfl
      exact Nat.zero_le _
    · rw [mem_subsetAgg_level hrm]
      omega
  · intro lv hlv
    cases lv with
    | zero =>
      refine ⟨⟨groups.map (fun c => (c, Cell.str "Total")), aggApply aggd rows, 0⟩,
        ?_, rfl⟩
      apply mem_proc_sums_core.mpr
      left
      rw [hgt]
      exact List.mem_singleton_self _
    | succ i =>
      have hi : i < groups.length := by omega
      rcases List.exists_mem_of_ne_nil _ (combinations_ne_nil groups (i + 1) hi)
        with ⟨subset, hs⟩
      have hkeys : (rows.map (keyOf subset)).dedup ≠ [] := by
        intro hdn
        have : rows.map (keyOf subset) = [] := (List.dedup_eq_nil _).mp hdn
        exact hrows (List.map_eq_nil_iff.mp this)
      have hblock : subsetAgg rows groups subset aggd (i + 1) ≠ [] := by
        unfold subsetAgg
        intro hmn
        exact hkeys (List.map_eq_nil_iff.mp hmn)
      rcases List.exists_mem_of_ne_nil _ hblock with ⟨row, hrowm⟩
      refine ⟨row, ?_, mem_subsetAgg_level hrowm⟩
      exact mem_proc_sums_core.mpr (Or.inr ⟨i, hi, subset, hs, hrowm⟩)
  · refine ⟨⟨groups.map (fun c => (c, Cell.str "Total")), aggApply aggd rows, 0⟩,
      ?_, rfl, rfl⟩
    unfold proc_sums_core
    rw [hgt]
    rfl
  · intro row hrow hne
    rcases mem_proc_sums_core.mp hrow with hgtm | ⟨i, hi, subset, hsubm, hrm⟩
    · rw [hgt] at hgtm
      rcases List.mem_singleton.mp hgtm with rfl
      cases groups with
      | nil => exact absurd rfl hg
      | cons g gs =>
        exact ⟨(g, Cell.str "Total"),
          List.mem_map.mpr ⟨g, List.mem_cons_self g gs, rfl⟩, rfl⟩
    · rcases combinations_sublist_length groups (i + 1) subset hsubm with ⟨hsub, hlen⟩
      have hlvl := mem_subsetAgg_level hrm
      have hlt : subset.length < groups.length := by
        rw [hlen]
        rw [hlvl] at hne
        omega
      have hex : ∃ c ∈ groups, c ∉ subset := by
        by_contra hcon
        push_neg at hcon
        have h1 : groups.toFinset.card = groups.length :=
          List.toFinset_card_of_nodup hnd
        have h2 : groups.toFinset ⊆ subset.toFinset := by
          intro x hx
          rw [List.mem_toFinset] at hx ⊢
          exact hcon x hx
        have h3 := Finset.card_le_card h2
        have h4 := subset.toFinset_card_le
        omega
      rcases hex with ⟨c, hcg, hcs⟩
      have hcont := contains_eq_false_of_not_mem hcs
      rcases mem_subsetAgg_gvals hrm with ⟨r, hr, hgv⟩
      refine ⟨(c, Cell.str "Total"), ?_, rfl⟩
      rw [hgv]
      exact List.mem_map.mpr ⟨c, hcg, by simp [hcs]⟩
  · have haux := levels_flat_aux rows groups aggd groups.length
    unfold proc_sums_core
    rw [hgt, List.map_append]
    apply List.pairwise_append.mpr
    refine ⟨by simp, haux.1, ?_⟩
    intro x hx y hy
    have hx0 : x = 0 := by simpa using hx
    subst hx0
    exact Nat.zero_le y

/-- C3: for N grouping columns (nonempty, duplicate-free, with the literal
string "Total" not occurring as a data value of a group column) and a
nonempty frame, every successful proc_sums output row's level equals its
number of non-"Total" grouping columns; the levels present are exactly
0..N, including a level-0 grand-total row (emitted first) with every
grouping column set to "Total"; every row not at level N has at least one
"Total" among its grouping columns; and the subset blocks are emitted in
ascending size order, level 0 first (levels are nondecreasing along the
output). -/
theorem proc_sums_output_shape (df : DataFrame) (groups : List String)
    (values : Option (List String)) (aggf : Option (List (String × AggVal)))
    (out : List OutRow)
    (hok : proc_sums df groups values aggf = Except.ok out)
    (hrows : df.rows ≠ []) (hg : groups ≠ []) (hnd : groups.Nodup)
    (htot : ∀ r ∈ df.rows, ∀ c ∈ groups, lookupCell r c ≠ Cell.str "Total") :
    (∀ row ∈ out, row.level =
      (row.gvals.filter (fun p => !(p.2 == Cell.str "Total"))).length) ∧
    (∀ row ∈ out, row.level ≤ groups.length) ∧
    (∀ lv, lv ≤ groups.length → ∃ row ∈ out, row.level = lv) ∧
    (∃ gt, out.head? = some gt ∧ gt.level = 0 ∧
      gt.gvals = groups.map (fun c => (c, Cell.str "Total"))) ∧
    (∀ row ∈ out, row.level ≠ groups.length →
      ∃ p ∈ row.gvals, p.2 = Cell.str "Total") ∧
    (out.map OutRow.level).Pairwise (fun a b => a ≤ b) := by
  have hcore : out = proc_sums_core df.rows groups
      (buildAggDict (procValues values aggf) aggf) := by
    unfold proc_sums at hok
    split_ifs at hok
    injection hok with h
    exact h.symm
  subst hcore
  exact proc_sums_core_shape df.rows groups _ hrows hg hnd htot

/-- C3 at a concrete input: the single-group aggregation of dfC4 over G
with value column B satisfies all six shape properties. -/
theorem proc_sums_output_shape_witness :
    (∀ row ∈ proc_sums_core dfC4.rows ["G"]
        (buildAggDict (procValues (some ["B"]) none) none), row.level =
      (row.gvals.filter (fun p => !(p.2 == Cell.str "Total"))).length) ∧
    (∀ row ∈ proc_sums_core dfC4.rows ["G"]
        (buildAggDict (procValues (some ["B"]) none) none),
      row.level ≤ (["G"] : List String).length) ∧
    (∀ lv, lv ≤ (["G"] : List String).length →
      ∃ row ∈ proc_sums_core dfC4.rows ["G"]
        (buildAggDict (procValues (some ["B"]) none) none), row.level = lv) ∧
    (∃ gt, (proc_sums_core dfC4.rows ["G"]
        (buildAggDict (procValues (some ["B"]) none) none)).head? = some gt ∧
      gt.level = 0 ∧
      gt.gvals = (["G"] : List String).map (fun c => (c, Cell.str "Total"))) ∧
    (∀ row ∈ proc_sums_core dfC4.rows ["G"]
        (buildAggDict (procValues (some ["B"]) none) none),
      row.level ≠ (["G"] : List String).length →
      ∃ p ∈ row.gvals, p.2 = Cell.str "Total") ∧
    ((proc_sums_core dfC4.rows ["G"]
        (buildAggDict (procValues (some ["B"]) none) none)).map
          OutRow.level).Pairwise (fun a b => a ≤ b) :=
  proc_sums_output_shape dfC4 ["G"] (some ["B"]) none _ rfl
    (by decide) (by decide) (by decide) (by decide)
